import Mathlib

/-!
# `html/config.js` of Weblate: the rendering of the template

`src/html/config.js` is a Django template of 16 lines.  The development below
transcribes the template, tag by tag and character by character, into a list of
template nodes (`config_js`), and gives the template tags that occur in it
(`{{ v }}`, `{% if v %}`, `{% for x in v %}`) their meaning in the Django template
language:

* `{% if v %}` tests the truth value of `v`: a variable that is not set, an empty
  string and an empty list are all false;
* text outside tags is copied as it stands, newlines after a tag included;
* `{{ v }}` writes the string `v`; the engine's `autoescape` setting (on by
  default in Django, and not switched off anywhere in the template) replaces the
  five characters `& < > " '` by HTML entities.  The setting belongs to the
  engine and to the caller, not to the template, so it is a parameter here.
-/

namespace ConfigJs

/-! ## Data model -/

/-- The values `config.js` reads from its context: a string (an API key, a
language code) or a list of strings (the language codes of one provider). -/
inductive Value
  | str (s : String)
  | list (xs : List String)

/-- The four optional context fields of the template; `none` is a field that is
absent (not set, or set to Python's `None`). -/
structure Context where
  apertium_api_key : Option String
  apertium_langs : Option (List String)
  microsoft_api_key : Option String
  microsoft_langs : Option (List String)

/-- A variable environment: the value of each template variable, if it has one. -/
abbrev Env := String → Option Value

/-- The environment a context gives rise to. -/
def Context.lookup (c : Context) : Env := fun name =>
  if name = "apertium_api_key" then c.apertium_api_key.map Value.str
  else if name = "apertium_langs" then c.apertium_langs.map Value.list
  else if name = "microsoft_api_key" then c.microsoft_api_key.map Value.str
  else if name = "microsoft_langs" then c.microsoft_langs.map Value.list
  else none

/-- The environment inside a `{% for x in ... %}` body: the loop variable `x` is
bound to the current element. -/
def Env.bind (env : Env) (x : String) (v : String) : Env := fun name =>
  if name = x then some (Value.str v) else env name

/-! ## The template language -/

/-- Truth value of a variable in `{% if v %}`: a variable without a value, the
empty string and the empty list are false, everything else is true. -/
def truthy : Option Value → Bool
  | none => false
  | some (.str s) => s != ""
  | some (.list xs) => !xs.isEmpty

/-- What autoescaping writes for one character (`django.utils.html.escape`, in
the Django versions this template was written for; later versions write
`&#x27;` for the single quote). -/
def escapeChar (c : Char) : List Char :=
  if c = '&' then ['&', 'a', 'm', 'p', ';']
  else if c = '<' then ['&', 'l', 't', ';']
  else if c = '>' then ['&', 'g', 't', ';']
  else if c = '"' then ['&', 'q', 'u', 'o', 't', ';']
  else if c = '\'' then ['&', '#', '3', '9', ';']
  else [c]

/-- HTML escaping of a string, character by character. -/
def escape (s : String) : String := ⟨s.data.flatMap escapeChar⟩

/-- What `{{ v }}` writes for the string `s`: the escaped string when
autoescaping is on, the string itself when it is off. -/
def output (autoescape : Bool) (s : String) : String :=
  if autoescape then escape s else s

/-- Template nodes: literal text, `{{ name }}`, `{% if name %}body{% endif %}` and
`{% for x in seq %}body{% endfor %}`. -/
inductive Node
  | text (s : String)
  | var (name : String)
  | ifTag (name : String) (body : List Node)
  | forTag (x : String) (seq : String) (body : List Node)

/-- The iterations of a `for` tag: the renderings of the body for the elements of
the sequence, in order, one after the other. -/
def loop (f : String → Option String) : List String → Option String
  | [] => some ""
  | v :: vs => do
    let a ← f v
    let b ← loop f vs
    some (a ++ b)

mutual
/-- Rendering of one node.  The result is `none` only where a tag is applied to
a value of a kind `config.js` never applies it to (`{{ v }}` of a list or of a
variable without a value, `{% for %}` over a string). -/
def evalNode (autoescape : Bool) (env : Env) : Node → Option String
  | .text s => some s
  | .var n =>
    match env n with
    | some (.str s) => some (output autoescape s)
    | _ => none
  | .ifTag n body => if truthy (env n) then evalNodes autoescape env body else some ""
  | .forTag x seq body =>
    match env seq with
    | none => some ""
    | some (.list xs) => loop (fun v => evalNodes autoescape (env.bind x v) body) xs
    | some (.str _) => none
/-- Rendering of a sequence of nodes: the renderings one after the other. -/
def evalNodes (autoescape : Bool) (env : Env) : List Node → Option String
  | [] => some ""
  | n :: ns => do
    let a ← evalNode autoescape env n
    let b ← evalNodes autoescape env ns
    some (a ++ b)
end

/-! ## The template -/

/-- Lines 1-3 of `config.js`, the newline that ends line 3 included. -/
def lines_1_3 : List Node :=
  [ .ifTag "apertium_api_key"
      [ .text "\nvar APERTIUM_API_KEY = '", .var "apertium_api_key", .text "';\n" ],
    .text "\n" ]

/-- Lines 4-10 of `config.js`, the newline that ends line 10 included. -/
def lines_4_10 : List Node :=
  [ .ifTag "apertium_langs"
      [ .text "\nvar APERTIUM_LANGS = [\n",
        .forTag "lang" "apertium_langs" [ .text "\n    '", .var "lang", .text "',\n" ],
        .text "\n];\n" ],
    .text "\n" ]

/-- Lines 11-13 of `config.js`, the newline that ends line 13 included. -/
def lines_11_13 : List Node :=
  [ .ifTag "microsoft_api_key"
      [ .text "\nvar MICROSOFT_API_KEY = '", .var "microsoft_api_key", .text "';\n" ],
    .text "\n" ]

/-- Lines 14-16 of `config.js`; the file ends right after `{% endif %}`. -/
def lines_14_16 : List Node :=
  [ .ifTag "microsoft_langs"
      [ .text "\nvar MICROSOFT_LANGS = [",
        .forTag "lang" "microsoft_langs" [ .text "'", .var "lang", .text "'," ],
        .text "];\n" ] ]

/-- The provider-A part of the template: lines 1-10. -/
def provider_a : List Node := lines_1_3 ++ lines_4_10

/-- The provider-B part of the template: lines 11-16. -/
def provider_b : List Node := lines_11_13 ++ lines_14_16

/-- The whole template. -/
def config_js : List Node := provider_a ++ provider_b

/-- Rendering of `config.js` in a context. -/
def render (autoescape : Bool) (c : Context) : Option String :=
  evalNodes autoescape c.lookup config_js

/-! ## Vocabulary of the statements -/

/-- The string `pat` occurs in `out`, as a block of consecutive characters. -/
def Contains (out pat : String) : Prop := pat.data <:+: out.data

instance (out pat : String) : Decidable (Contains out pat) :=
  inferInstanceAs (Decidable (pat.data <:+: out.data))

/-- The texts `f x` for the elements `x` of a list, in order, one after the other. -/
def joinMap (f : String → String) : List String → String
  | [] => ""
  | x :: xs => f x ++ joinMap f xs

/-! ## The text of each block

The four functions below give, in closed form, what each `if` block of the
template writes; `render_eq` proves that the template renders to them. -/

/-- The text lines 1-3 produce before their final newline. -/
def apertiumKeyText (autoescape : Bool) : Option String → String
  | none => ""
  | some k =>
    if k = "" then "" else "\nvar APERTIUM_API_KEY = '" ++ output autoescape k ++ "';\n"

/-- The text lines 4-10 produce before their final newline. -/
def apertiumLangsText (autoescape : Bool) : Option (List String) → String
  | none => ""
  | some [] => ""
  | some (l :: ls) =>
    "\nvar APERTIUM_LANGS = [\n"
      ++ joinMap (fun x => "\n    '" ++ output autoescape x ++ "',\n") (l :: ls) ++ "\n];\n"

/-- The text lines 11-13 produce before their final newline. -/
def microsoftKeyText (autoescape : Bool) : Option String → String
  | none => ""
  | some k =>
    if k = "" then "" else "\nvar MICROSOFT_API_KEY = '" ++ output autoescape k ++ "';\n"

/-- The text lines 14-16 produce. -/
def microsoftLangsText (autoescape : Bool) : Option (List String) → String
  | none => ""
  | some [] => ""
  | some (l :: ls) =>
    "\nvar MICROSOFT_LANGS = ["
      ++ joinMap (fun x => "'" ++ output autoescape x ++ "',") (l :: ls) ++ "];\n"

/-- The text the provider-A part of the template (lines 1-10) produces. -/
def providerAText (ae : Bool) (c : Context) : String :=
  (apertiumKeyText ae c.apertium_api_key ++ "\n")
    ++ (apertiumLangsText ae c.apertium_langs ++ "\n")

/-- The text the provider-B part of the template (lines 11-16) produces. -/
def providerBText (ae : Bool) (c : Context) : String :=
  (microsoftKeyText ae c.microsoft_api_key ++ "\n")
    ++ microsoftLangsText ae c.microsoft_langs

/-- The lines of a text: the stretches of characters between its newlines, the
(possibly empty) stretches before the first and after the last newline included. -/
def splitLines : List Char → List (List Char)
  | [] => [[]]
  | c :: cs =>
    if c = '\n' then [] :: splitLines cs
    else
      match splitLines cs with
      | [] => [[c]]
      | l :: ls => (c :: l) :: ls

/-- The lines of a string. -/
def linesOf (s : String) : List String := (splitLines s.data).map String.mk

/-! ## JavaScript statements of an output

Some properties are about the JavaScript statements of the output and the names
they declare.  The definitions below read a text as JavaScript as far as that
needs: string literals (in which a backslash takes the next character with it),
`//` comments, statements ended by `;`, and `var` declarations. -/

/-- Line terminators of JavaScript: LF, CR, U+2028 and U+2029.  None of them may
stand in a string literal (ECMAScript 5, the language of the browsers this
template was written for; later editions admit the last two there), and each of
them ends a `//` comment. -/
def isLineTerminator (c : Char) : Bool :=
  c == '\n' || c == '\r' || c == Char.ofNat 0x2028 || c == Char.ofNat 0x2029

/-- Where the reader of a JavaScript text stands: in code, inside a single-quoted
or a double-quoted string literal, right after a backslash inside one of them, or
inside a `//` comment. -/
inductive LexState
  | code
  | single
  | singleEsc
  | double
  | doubleEsc
  | comment

/-- The code of a JavaScript text: the text without the contents of its string
literals (the quotes stay) and without its `//` comments.  The result is `none`
when a string literal is broken by a line terminator or still open at the end. -/
def jsCode : LexState → List Char → Option (List Char)
  | .code, [] => some []
  | .comment, [] => some []
  | .single, [] => none
  | .singleEsc, [] => none
  | .double, [] => none
  | .doubleEsc, [] => none
  | .code, c :: cs =>
    if c = '\'' then (jsCode .single cs).map (c :: ·)
    else if c = '"' then (jsCode .double cs).map (c :: ·)
    else if c = '/' ∧ cs.head? = some '/' then jsCode .comment cs
    else (jsCode .code cs).map (c :: ·)
  | .single, c :: cs =>
    if c = '\\' then jsCode .singleEsc cs
    else if c = '\'' then (jsCode .code cs).map (c :: ·)
    else if isLineTerminator c then none
    else jsCode .single cs
  | .singleEsc, _ :: cs => jsCode .single cs
  | .double, c :: cs =>
    if c = '\\' then jsCode .doubleEsc cs
    else if c = '"' then (jsCode .code cs).map (c :: ·)
    else if isLineTerminator c then none
    else jsCode .double cs
  | .doubleEsc, _ :: cs => jsCode .double cs
  | .comment, c :: cs =>
    if isLineTerminator c then (jsCode .code cs).map (c :: ·) else jsCode .comment cs

/-- The stretches of a code text between its semicolons. -/
def splitSemicolons : List Char → List (List Char)
  | [] => [[]]
  | c :: cs =>
    if c = ';' then [] :: splitSemicolons cs
    else
      match splitSemicolons cs with
      | [] => [[c]]
      | p :: ps => (c :: p) :: ps

/-- A stretch of code that holds nothing but blanks and line terminators. -/
def isBlank (p : List Char) : Bool :=
  p.all (fun c => c == ' ' || c == '\t' || isLineTerminator c)

/-- The statements of a code text: the stretches between its semicolons that are
not blank. -/
def statements (code : List Char) : List (List Char) :=
  (splitSemicolons code).filter (fun p => !isBlank p)

/-- Characters of a JavaScript identifier. -/
def isIdentChar (c : Char) : Bool := c.isAlphanum || c == '_' || c == '$'

/-- The names a stretch of code declares: the identifier after each keyword
`var` (a `var ` that does not continue an identifier).  `inWord` tells whether
the character before the stretch is an identifier character. -/
def declaredNamesFrom (inWord : Bool) : List Char → List String
  | [] => []
  | c :: cs =>
    (if !inWord && "var ".data.isPrefixOf (c :: cs)
      then [String.mk ((cs.drop 3).takeWhile isIdentChar)] else [])
      ++ declaredNamesFrom (isIdentChar c) cs

/-- The names a statement declares. -/
def declaredNames (p : List Char) : List String := declaredNamesFrom false p

/-- The JavaScript statements of an output, each given by the names it declares,
in the order of the output; `none` when the output is not well-formed JavaScript
text (a broken string literal). -/
def declarations (out : String) : Option (List (List String)) :=
  (jsCode .code out.data).map (fun code => (statements code).map declaredNames)

/-! ## The rendering, computed -/

theorem loop_eq_joinMap (g : String → Option String) (f : String → String)
    (h : ∀ v, g v = some (f v)) (xs : List String) :
    loop g xs = some (joinMap f xs) := by
  induction xs with
  | nil => rfl
  | cons v vs ih => simp [loop, joinMap, h, ih]

theorem eval_lines_1_3 (ae : Bool) (c : Context) :
    evalNodes ae c.lookup lines_1_3 = some (apertiumKeyText ae c.apertium_api_key ++ "\n") := by
  rcases c with ⟨k, al, m, ml⟩
  cases k with
  | none => simp [lines_1_3, evalNodes, evalNode, Context.lookup, truthy, apertiumKeyText]
  | some k =>
    by_cases hk : k = ""
    · simp [lines_1_3, evalNodes, evalNode, Context.lookup, truthy, apertiumKeyText, hk]
    · simp [lines_1_3, evalNodes, evalNode, Context.lookup, truthy, apertiumKeyText, hk,
        String.append_assoc]

theorem eval_lines_11_13 (ae : Bool) (c : Context) :
    evalNodes ae c.lookup lines_11_13
      = some (microsoftKeyText ae c.microsoft_api_key ++ "\n") := by
  rcases c with ⟨k, al, m, ml⟩
  cases m with
  | none => simp [lines_11_13, evalNodes, evalNode, Context.lookup, truthy, microsoftKeyText]
  | some m =>
    by_cases hm : m = ""
    · simp [lines_11_13, evalNodes, evalNode, Context.lookup, truthy, microsoftKeyText, hm]
    · simp [lines_11_13, evalNodes, evalNode, Context.lookup, truthy, microsoftKeyText, hm,
        String.append_assoc]

theorem eval_lines_4_10 (ae : Bool) (c : Context) :
    evalNodes ae c.lookup lines_4_10
      = some (apertiumLangsText ae c.apertium_langs ++ "\n") := by
  rcases c with ⟨k, al, m, ml⟩
  rcases al with _ | _ | ⟨l, ls⟩
  · simp [lines_4_10, evalNodes, evalNode, Context.lookup, truthy, apertiumLangsText]
  · simp [lines_4_10, evalNodes, evalNode, Context.lookup, truthy, apertiumLangsText]
  · have h := loop_eq_joinMap
      (fun v => evalNodes ae (Env.bind (Context.lookup ⟨k, some (l :: ls), m, ml⟩) "lang" v)
        [ .text "\n    '", .var "lang", .text "',\n" ])
      (fun x => "\n    '" ++ output ae x ++ "',\n")
      (by intro v; simp [evalNodes, evalNode, Env.bind, String.append_assoc]) (l :: ls)
    simp [lines_4_10, evalNodes, evalNode, Context.lookup, truthy, apertiumLangsText] at h ⊢
    simp [h, String.append_assoc]

theorem eval_lines_14_16 (ae : Bool) (c : Context) :
    evalNodes ae c.lookup lines_14_16 = some (microsoftLangsText ae c.microsoft_langs) := by
  rcases c with ⟨k, al, m, ml⟩
  rcases ml with _ | _ | ⟨l, ls⟩
  · simp [lines_14_16, evalNodes, evalNode, Context.lookup, truthy, microsoftLangsText]
  · simp [lines_14_16, evalNodes, evalNode, Context.lookup, truthy, microsoftLangsText]
  · have h := loop_eq_joinMap
      (fun v => evalNodes ae (Env.bind (Context.lookup ⟨k, al, m, some (l :: ls)⟩) "lang" v)
        [ .text "'", .var "lang", .text "'," ])
      (fun x => "'" ++ output ae x ++ "',")
      (by intro v; simp [evalNodes, evalNode, Env.bind, String.append_assoc]) (l :: ls)
    simp [lines_14_16, evalNodes, evalNode, Context.lookup, truthy, microsoftLangsText] at h ⊢
    simp [h, String.append_assoc]

theorem evalNodes_append (ae : Bool) (env : Env) (xs ys : List Node) (a b : String)
    (ha : evalNodes ae env xs = some a) (hb : evalNodes ae env ys = some b) :
    evalNodes ae env (xs ++ ys) = some (a ++ b) := by
  induction xs generalizing a with
  | nil =>
    simp [evalNodes] at ha
    subst ha
    simpa using hb
  | cons n ns ih =>
    simp only [List.cons_append, evalNodes] at ha ⊢
    cases hn : evalNode ae env n with
    | none => simp [hn] at ha
    | some u =>
      cases hns : evalNodes ae env ns with
      | none => simp [hn, hns] at ha
      | some w =>
        simp [hn, hns] at ha
        subst ha
        simp [ih w hns, String.append_assoc]

theorem eval_provider_a (ae : Bool) (c : Context) :
    evalNodes ae c.lookup provider_a = some (providerAText ae c) :=
  evalNodes_append ae _ _ _ _ _ (eval_lines_1_3 ae c) (eval_lines_4_10 ae c)

theorem eval_provider_b (ae : Bool) (c : Context) :
    evalNodes ae c.lookup provider_b = some (providerBText ae c) :=
  evalNodes_append ae _ _ _ _ _ (eval_lines_11_13 ae c) (eval_lines_14_16 ae c)

/-- Rendering never fails, and its result is the four blocks in the order of the
template, each followed by the newline that ends its `endif` line (the last
`endif` ends the file). -/
theorem render_eq (ae : Bool) (c : Context) :
    render ae c = some (providerAText ae c ++ providerBText ae c) :=
  evalNodes_append ae _ _ _ _ _ (eval_provider_a ae c) (eval_provider_b ae c)

/-! ## Occurrences -/

theorem contains_refl (s : String) : Contains s s := List.infix_refl _

theorem contains_append_right {s p : String} (t : String) (h : Contains s p) :
    Contains (s ++ t) p := by
  unfold Contains at h ⊢
  rw [String.data_append]
  exact h.trans (List.infix_append' [] _ _)

theorem contains_append_left {s p : String} (t : String) (h : Contains s p) :
    Contains (t ++ s) p := by
  unfold Contains at h ⊢
  rw [String.data_append]
  exact h.trans (List.suffix_append _ _).isInfix

theorem contains_joinMap (f : String → String) {l : String} {ls : List String}
    (h : l ∈ ls) : Contains (joinMap f ls) (f l) := by
  induction ls with
  | nil => simp at h
  | cons x xs ih =>
    rcases List.mem_cons.1 h with rfl | h
    · exact contains_append_right _ (contains_refl _)
    · exact contains_append_left _ (ih h)

theorem output_false (s : String) : output false s = s := rfl

theorem escapeChar_plain {ch : Char}
    (h : ch ≠ '&' ∧ ch ≠ '<' ∧ ch ≠ '>' ∧ ch ≠ '"' ∧ ch ≠ '\'') : escapeChar ch = [ch] := by
  simp [escapeChar, h.1, h.2.1, h.2.2.1, h.2.2.2.1, h.2.2.2.2]

theorem flatMap_escapeChar_plain (cs : List Char)
    (h : ∀ ch ∈ cs, ch ≠ '&' ∧ ch ≠ '<' ∧ ch ≠ '>' ∧ ch ≠ '"' ∧ ch ≠ '\'') :
    cs.flatMap escapeChar = cs := by
  induction cs with
  | nil => rfl
  | cons c cs ih =>
    rw [List.flatMap_cons, escapeChar_plain (h c (List.mem_cons_self _ _)),
      ih (fun ch hch => h ch (List.mem_cons_of_mem _ hch))]
    rfl

theorem output_plain (ae : Bool) (s : String)
    (h : ∀ ch ∈ s.data, ch ≠ '&' ∧ ch ≠ '<' ∧ ch ≠ '>' ∧ ch ≠ '"' ∧ ch ≠ '\'') :
    output ae s = s := by
  cases ae
  · rfl
  · simp [output, escape, flatMap_escapeChar_plain s.data h]

/-! ## Lines -/

theorem splitLines_newline (t : List Char) : splitLines ('\n' :: t) = [] :: splitLines t := by
  simp [splitLines]

theorem splitLines_segment (v t : List Char) (h : ∀ ch ∈ v, ch ≠ '\n') :
    splitLines (v ++ '\n' :: t) = v :: splitLines t := by
  induction v with
  | nil => simp [splitLines]
  | cons c v ih =>
    have hc : c ≠ '\n' := h c (List.mem_cons_self _ _)
    have ih2 := ih (fun ch hch => h ch (List.mem_cons_of_mem _ hch))
    simp [splitLines, hc, ih2]

theorem splitLines_last (v : List Char) (h : ∀ ch ∈ v, ch ≠ '\n') :
    splitLines v = [v] := by
  induction v with
  | nil => simp [splitLines]
  | cons c v ih =>
    have hc : c ≠ '\n' := h c (List.mem_cons_self _ _)
    have ih2 := ih (fun ch hch => h ch (List.mem_cons_of_mem _ hch))
    simp [splitLines, hc, ih2]

theorem escapeChar_no_newline (c : Char) (hc : c ≠ '\n') : ∀ ch ∈ escapeChar c, ch ≠ '\n' := by
  intro ch hch hnl
  subst hnl
  unfold escapeChar at hch
  split_ifs at hch <;> simp at hch
  exact hc hch.symm

theorem output_no_newline (ae : Bool) (v : String) (h : ∀ ch ∈ v.data, ch ≠ '\n') :
    ∀ ch ∈ (output ae v).data, ch ≠ '\n' := by
  cases ae
  · exact h
  · intro ch hch
    simp only [output, escape, if_true, List.mem_flatMap] at hch
    obtain ⟨c, hc, hch⟩ := hch
    exact escapeChar_no_newline c (h c hc) ch hch

theorem noNewline_append {a b : List Char} (ha : ∀ ch ∈ a, ch ≠ '\n')
    (hb : ∀ ch ∈ b, ch ≠ '\n') : ∀ ch ∈ a ++ b, ch ≠ '\n' := by
  intro ch h
  rcases List.mem_append.1 h with h | h
  · exact ha ch h
  · exact hb ch h

theorem splitLines_entries (ae : Bool) (al : List String) (t : List Char)
    (h : ∀ v ∈ al, ∀ ch ∈ v.data, ch ≠ '\n') :
    splitLines ((joinMap (fun x => "\n    '" ++ output ae x ++ "',\n") al).data ++ t)
      = al.flatMap (fun x => [[], ("    '" ++ output ae x ++ "',").data]) ++ splitLines t := by
  induction al with
  | nil => simp [joinMap]
  | cons x xs ih =>
    have hx := output_no_newline ae x (h x (List.mem_cons_self _ _))
    have ih2 := ih (fun v hv => h v (List.mem_cons_of_mem _ hv))
    have e : (joinMap (fun x => "\n    '" ++ output ae x ++ "',\n") (x :: xs)).data ++ t
        = '\n' :: (("    '" ++ output ae x ++ "',").data ++ '\n' ::
            ((joinMap (fun x => "\n    '" ++ output ae x ++ "',\n") xs).data ++ t)) := by
      simp [joinMap, String.data_append]
    rw [e, splitLines_newline, splitLines_segment, ih2]
    · simp
    · simp only [String.data_append]
      exact noNewline_append (noNewline_append (by decide) hx) (by decide)


theorem mk_data (s : String) : String.mk s.data = s := rfl

theorem noNewline_joinMap (ae : Bool) (ml : List String)
    (h : ∀ v ∈ ml, ∀ ch ∈ v.data, ch ≠ '\n') :
    ∀ ch ∈ (joinMap (fun x => "'" ++ output ae x ++ "',") ml).data, ch ≠ '\n' := by
  induction ml with
  | nil => simp [joinMap]
  | cons x xs ih =>
    simp only [joinMap, String.data_append]
    exact noNewline_append
      (noNewline_append (noNewline_append (by decide)
        (output_no_newline ae x (h x (List.mem_cons_self _ _)))) (by decide))
      (ih (fun v hv => h v (List.mem_cons_of_mem _ hv)))


theorem map_mk_entries (ae : Bool) (al : List String) :
    (al.flatMap (fun x => [[], ("    '" ++ output ae x ++ "',").data])).map String.mk
      = al.flatMap (fun x => ["", "    '" ++ output ae x ++ "',"]) := by
  induction al with
  | nil => rfl
  | cons x xs ih =>
    simp only [List.flatMap_cons, List.map_append, ih, List.map_cons, List.map_nil, mk_data]

/-! ## Escaping is injective and writes no single quote -/

theorem escapeChar_prefix_code {c d : Char} {A B : List Char}
    (h : escapeChar c ++ A = escapeChar d ++ B) : c = d ∧ A = B := by
  unfold escapeChar at h
  split_ifs at h <;> simp_all
  all_goals (obtain ⟨h1, _⟩ := h; subst h1; contradiction)

theorem escapeChar_ne_nil (c : Char) : escapeChar c ≠ [] := by
  unfold escapeChar
  split_ifs <;> simp

theorem flatMap_escapeChar_injective (a b : List Char)
    (h : a.flatMap escapeChar = b.flatMap escapeChar) : a = b := by
  induction a generalizing b with
  | nil =>
    cases b with
    | nil => rfl
    | cons d b =>
      rw [List.flatMap_nil, List.flatMap_cons] at h
      exact absurd (List.append_eq_nil.1 h.symm).1 (escapeChar_ne_nil d)
  | cons c a ih =>
    cases b with
    | nil =>
      rw [List.flatMap_nil, List.flatMap_cons] at h
      exact absurd (List.append_eq_nil.1 h).1 (escapeChar_ne_nil c)
    | cons d b =>
      rw [List.flatMap_cons, List.flatMap_cons] at h
      obtain ⟨hcd, hab⟩ := escapeChar_prefix_code h
      rw [hcd, ih b hab]

theorem escapeChar_no_quote (c : Char) : ∀ ch ∈ escapeChar c, ch ≠ '\'' := by
  intro ch hch hq
  subst hq
  unfold escapeChar at hch
  split_ifs at hch <;> simp at hch
  rename_i h5
  exact h5 hch.symm

theorem escape_no_quote (v : String) : ∀ ch ∈ (escape v).data, ch ≠ '\'' := by
  intro ch hch
  simp only [escape, List.mem_flatMap] at hch
  obtain ⟨c, _, hch⟩ := hch
  exact escapeChar_no_quote c ch hch

theorem escape_injective {v w : String} (h : escape v = escape w) : v = w := by
  have h2 : (escape v).data = (escape w).data := by rw [h]
  exact String.ext (flatMap_escapeChar_injective _ _ h2)

theorem split_at_first {q : Char} (a b r s : List Char) (ha : ∀ ch ∈ a, ch ≠ q)
    (hb : ∀ ch ∈ b, ch ≠ q) (h : a ++ q :: r = b ++ q :: s) : a = b ∧ r = s := by
  induction a generalizing b with
  | nil =>
    cases b with
    | nil => simpa using h
    | cons d b =>
      simp only [List.nil_append, List.cons_append, List.cons.injEq] at h
      exact absurd h.1.symm (hb d (List.mem_cons_self _ _))
  | cons c a ih =>
    cases b with
    | nil =>
      simp only [List.nil_append, List.cons_append, List.cons.injEq] at h
      exact absurd h.1 (ha c (List.mem_cons_self _ _))
    | cons d b =>
      simp only [List.cons_append, List.cons.injEq] at h
      obtain ⟨h1, h2⟩ := ih b (fun ch hch => ha ch (List.mem_cons_of_mem _ hch))
        (fun ch hch => hb ch (List.mem_cons_of_mem _ hch)) h.2
      exact ⟨by rw [h.1, h1], h2⟩

theorem joinMap_entries_injective (g : String → String) (xs ys : List String)
    (hq : ∀ v ∈ xs ++ ys, ∀ ch ∈ (g v).data, ch ≠ '\'')
    (hinj : ∀ v ∈ xs, ∀ w ∈ ys, g v = g w → v = w)
    (h : (joinMap (fun x => "'" ++ g x ++ "',") xs).data
      = (joinMap (fun x => "'" ++ g x ++ "',") ys).data) : xs = ys := by
  induction xs generalizing ys with
  | nil =>
    cases ys with
    | nil => rfl
    | cons y ys => simp [joinMap, String.data_append] at h
  | cons x xs ih =>
    cases ys with
    | nil => simp [joinMap, String.data_append] at h
    | cons y ys =>
      simp only [joinMap, String.data_append] at h
      have h2 : (g x).data ++ '\'' :: (',' ::
            (joinMap (fun x => "'" ++ g x ++ "',") xs).data)
          = (g y).data ++ '\'' :: (',' ::
            (joinMap (fun x => "'" ++ g x ++ "',") ys).data) := by
        simpa using h
      obtain ⟨h3, h4⟩ := split_at_first _ _ _ _ (hq x (by simp)) (hq y (by simp)) h2
      have hxy : x = y := hinj x (List.mem_cons_self _ _) y (List.mem_cons_self _ _)
        (String.ext h3)
      have h5 := ih ys (fun v hv => hq v (by
          rcases List.mem_append.1 hv with hv | hv
          · simp [hv]
          · simp [hv]))
        (fun v hv w hw => hinj v (List.mem_cons_of_mem _ hv) w (List.mem_cons_of_mem _ hw))
        (by simpa using h4)
      rw [hxy, h5]

/-! ## The language lists -/

theorem microsoftLangsText_cons (ae : Bool) (l : String) (ls : List String) :
    microsoftLangsText ae (some (l :: ls))
      = "\n" ++ ("var MICROSOFT_LANGS = ["
          ++ joinMap (fun x => "'" ++ output ae x ++ "',") (l :: ls) ++ "];") ++ "\n" := by
  apply String.ext
  simp [microsoftLangsText, String.data_append]

theorem apertiumLangsText_cons (ae : Bool) (l : String) (ls : List String) :
    apertiumLangsText ae (some (l :: ls))
      = "\n" ++ ("var APERTIUM_LANGS = [\n"
          ++ joinMap (fun x => "\n    '" ++ output ae x ++ "',\n") (l :: ls) ++ "\n];")
          ++ "\n" := by
  apply String.ext
  simp [apertiumLangsText, String.data_append]

theorem output_no_quote (ae : Bool) (v : String)
    (h : ae = true ∨ ∀ ch ∈ v.data, ch ≠ '\'') : ∀ ch ∈ (output ae v).data, ch ≠ '\'' := by
  cases ae
  · rcases h with h | h
    · exact absurd h (by decide)
    · exact h
  · exact escape_no_quote v

theorem output_injective (ae : Bool) {v w : String} (h : output ae v = output ae w) :
    v = w := by
  cases ae
  · exact h
  · exact escape_injective h

theorem microsoftLangsText_injective (ae : Bool) (xs ys : List String)
    (hq : ae = true ∨
      ((∀ v ∈ xs, ∀ ch ∈ v.data, ch ≠ '\'') ∧ (∀ v ∈ ys, ∀ ch ∈ v.data, ch ≠ '\'')))
    (h : microsoftLangsText ae (some xs) = microsoftLangsText ae (some ys)) : xs = ys := by
  have hqo : ∀ v ∈ xs ++ ys, ∀ ch ∈ (output ae v).data, ch ≠ '\'' := by
    intro v hv
    apply output_no_quote
    rcases hq with hq | hq
    · exact Or.inl hq
    · rcases List.mem_append.1 hv with hv | hv
      · exact Or.inr (hq.1 v hv)
      · exact Or.inr (hq.2 v hv)
  have hd := congrArg String.data h
  cases xs with
  | nil =>
    cases ys with
    | nil => rfl
    | cons y ys => simp [microsoftLangsText, String.data_append] at hd
  | cons x xs =>
    cases ys with
    | nil => simp [microsoftLangsText, String.data_append] at hd
    | cons y ys =>
      apply joinMap_entries_injective (output ae) _ _ hqo
        (fun v _ w _ hvw => output_injective ae hvw)
      simp only [microsoftLangsText, String.data_append] at hd
      have h1 := List.append_cancel_right hd
      exact List.append_cancel_left h1

theorem render_microsoft_langs_injective (ae : Bool) (k m : Option String)
    (al : Option (List String)) (xs ys : List String)
    (hq : ae = true ∨
      ((∀ v ∈ xs, ∀ ch ∈ v.data, ch ≠ '\'') ∧ (∀ v ∈ ys, ∀ ch ∈ v.data, ch ≠ '\'')))
    (h : render ae ⟨k, al, m, some xs⟩ = render ae ⟨k, al, m, some ys⟩) : xs = ys := by
  apply microsoftLangsText_injective ae xs ys hq
  rw [render_eq, render_eq] at h
  have hd := congrArg String.data (Option.some.inj h)
  simp only [providerAText, providerBText, String.data_append, List.append_assoc] at hd
  have h1 := List.append_cancel_left hd
  have h2 := List.append_cancel_left h1
  have h3 := List.append_cancel_left h2
  have h4 := List.append_cancel_left h3
  have h5 := List.append_cancel_left h4
  exact String.ext (List.append_cancel_left h5)

set_option maxRecDepth 100000

/-! ## The JavaScript statements of the rendering -/

theorem jsCode_single_value (v T : List Char) (r : List Char)
    (hv : ∀ ch ∈ v, ch ≠ '\'' ∧ ch ≠ '\\' ∧ isLineTerminator ch = false)
    (hT : jsCode .code T = some r) :
    jsCode .single (v ++ '\'' :: T) = some ('\'' :: r) := by
  induction v with
  | nil => simp [jsCode, hT]
  | cons c v ih =>
    obtain ⟨h1, h2, h3⟩ := hv c (List.mem_cons_self _ _)
    have ih2 := ih (fun ch hch => hv ch (List.mem_cons_of_mem _ hch))
    simp [jsCode, h1, h2, h3, ih2]

theorem jsCode_quoted (v T : List Char) (r : List Char)
    (hv : ∀ ch ∈ v, ch ≠ '\'' ∧ ch ≠ '\\' ∧ isLineTerminator ch = false)
    (hT : jsCode .code T = some r) :
    jsCode .code ('\'' :: (v ++ '\'' :: T)) = some ('\'' :: '\'' :: r) := by
  simp [jsCode, jsCode_single_value v T r hv hT]

theorem jsCode_plain (S T : List Char) (r : List Char)
    (hS : ∀ ch ∈ S, ch ≠ '\'' ∧ ch ≠ '"' ∧ ch ≠ '/')
    (hT : jsCode .code T = some r) :
    jsCode .code (S ++ T) = some (S ++ r) := by
  induction S with
  | nil => simpa using hT
  | cons c S ih =>
    obtain ⟨h1, h2, h3⟩ := hS c (List.mem_cons_self _ _)
    have ih2 := ih (fun ch hch => hS ch (List.mem_cons_of_mem _ hch))
    simp [jsCode, h1, h2, h3, ih2]


theorem escapeChar_stringSafe (c : Char)
    (hc : c ≠ '\'' ∧ c ≠ '\\' ∧ isLineTerminator c = false) :
    ∀ ch ∈ escapeChar c, ch ≠ '\'' ∧ ch ≠ '\\' ∧ isLineTerminator ch = false := by
  intro ch hch
  unfold escapeChar at hch
  split_ifs at hch
  · revert ch; decide
  · revert ch; decide
  · revert ch; decide
  · revert ch; decide
  · revert ch; decide
  · rw [List.mem_singleton.1 hch]; exact hc

theorem output_stringSafe (ae : Bool) (v : String)
    (h : ∀ ch ∈ v.data, ch ≠ '\'' ∧ ch ≠ '\\' ∧ isLineTerminator ch = false) :
    ∀ ch ∈ (output ae v).data, ch ≠ '\'' ∧ ch ≠ '\\' ∧ isLineTerminator ch = false := by
  cases ae
  · exact h
  · intro ch hch
    simp only [output, escape, if_true, List.mem_flatMap] at hch
    obtain ⟨c, hc, hch⟩ := hch
    exact escapeChar_stringSafe c (h c hc) ch hch

theorem jsCode_apertium_entries (ae : Bool) (al : List String) (T r : List Char)
    (h : ∀ v ∈ al, ∀ ch ∈ v.data, ch ≠ '\'' ∧ ch ≠ '\\' ∧ isLineTerminator ch = false)
    (hT : jsCode .code T = some r) :
    jsCode .code ((joinMap (fun x => "\n    '" ++ output ae x ++ "',\n") al).data ++ T)
      = some (al.flatMap (fun _ => "\n    '',\n".data) ++ r) := by
  induction al with
  | nil => simpa [joinMap] using hT
  | cons x xs ih =>
    have ih2 := ih (fun v hv => h v (List.mem_cons_of_mem _ hv))
    have hx := output_stringSafe ae x (h x (List.mem_cons_self _ _))
    have e : (joinMap (fun x => "\n    '" ++ output ae x ++ "',\n") (x :: xs)).data ++ T
        = "\n    ".data ++ ('\'' :: ((output ae x).data ++ '\'' :: (",\n".data ++
            ((joinMap (fun x => "\n    '" ++ output ae x ++ "',\n") xs).data ++ T)))) := by
      simp [joinMap, String.data_append]
    rw [e, jsCode_plain _ _ _ (by decide)
      (jsCode_quoted _ _ _ hx (jsCode_plain _ _ _ (by decide) ih2))]
    simp

theorem jsCode_microsoft_entries (ae : Bool) (ml : List String) (T r : List Char)
    (h : ∀ v ∈ ml, ∀ ch ∈ v.data, ch ≠ '\'' ∧ ch ≠ '\\' ∧ isLineTerminator ch = false)
    (hT : jsCode .code T = some r) :
    jsCode .code ((joinMap (fun x => "'" ++ output ae x ++ "',") ml).data ++ T)
      = some (ml.flatMap (fun _ => "'',".data) ++ r) := by
  induction ml with
  | nil => simpa [joinMap] using hT
  | cons x xs ih =>
    have ih2 := ih (fun v hv => h v (List.mem_cons_of_mem _ hv))
    have hx := output_stringSafe ae x (h x (List.mem_cons_self _ _))
    have e : (joinMap (fun x => "'" ++ output ae x ++ "',") (x :: xs)).data ++ T
        = '\'' :: ((output ae x).data ++ '\'' :: (",".data ++
            ((joinMap (fun x => "'" ++ output ae x ++ "',") xs).data ++ T))) := by
      simp [joinMap, String.data_append]
    rw [e, jsCode_quoted _ _ _ hx (jsCode_plain _ _ _ (by decide) ih2)]
    simp


theorem jsCode_all_present (ae : Bool) (k m : String) (al ml : List String)
    (hk : k ≠ "") (hm : m ≠ "") (hal : al ≠ []) (hml : ml ≠ [])
    (hsk : ∀ ch ∈ k.data, ch ≠ '\'' ∧ ch ≠ '\\' ∧ isLineTerminator ch = false)
    (hsm : ∀ ch ∈ m.data, ch ≠ '\'' ∧ ch ≠ '\\' ∧ isLineTerminator ch = false)
    (hsal : ∀ v ∈ al, ∀ ch ∈ v.data, ch ≠ '\'' ∧ ch ≠ '\\' ∧ isLineTerminator ch = false)
    (hsml : ∀ v ∈ ml, ∀ ch ∈ v.data, ch ≠ '\'' ∧ ch ≠ '\\' ∧ isLineTerminator ch = false) :
    jsCode .code (providerAText ae ⟨some k, some al, some m, some ml⟩
        ++ providerBText ae ⟨some k, some al, some m, some ml⟩).data
      = some ("\nvar APERTIUM_API_KEY = ''".data ++ ';' ::
          (("\n\n\nvar APERTIUM_LANGS = [".data ++ '\n' ::
              (al.flatMap (fun _ => "\n    '',\n".data) ++ "\n]".data)) ++ ';' ::
            ("\n\n\nvar MICROSOFT_API_KEY = ''".data ++ ';' ::
              (("\n\n\nvar MICROSOFT_LANGS = ".data ++ '[' ::
                  (ml.flatMap (fun _ => "'',".data) ++ "]".data)) ++ ';' ::
                "\n".data)))) := by
  obtain ⟨a, as, rfl⟩ := List.exists_cons_of_ne_nil hal
  obtain ⟨b, bs, rfl⟩ := List.exists_cons_of_ne_nil hml
  have e : (providerAText ae ⟨some k, some (a :: as), some m, some (b :: bs)⟩
        ++ providerBText ae ⟨some k, some (a :: as), some m, some (b :: bs)⟩).data
      = "\nvar APERTIUM_API_KEY = ".data ++ ('\'' :: ((output ae k).data ++ '\'' ::
          (";\n\n\nvar APERTIUM_LANGS = [\n".data ++
            ((joinMap (fun x => "\n    '" ++ output ae x ++ "',\n") (a :: as)).data ++
              ("\n];\n\n\nvar MICROSOFT_API_KEY = ".data ++ ('\'' :: ((output ae m).data ++
                '\'' :: (";\n\n\nvar MICROSOFT_LANGS = [".data ++
                  ((joinMap (fun x => "'" ++ output ae x ++ "',") (b :: bs)).data ++
                    "];\n".data))))))))) := by
    simp [providerAText, providerBText, apertiumKeyText, apertiumLangsText, microsoftKeyText,
      microsoftLangsText, hk, hm, String.data_append]
  have h1 : jsCode .code "];\n".data = some "];\n".data := by decide
  have h2 := jsCode_microsoft_entries ae (b :: bs) _ _ hsml h1
  have h3 := jsCode_plain ";\n\n\nvar MICROSOFT_LANGS = [".data _ _ (by decide) h2
  have h4 := jsCode_quoted _ _ _ (output_stringSafe ae m hsm) h3
  have h5 := jsCode_plain "\n];\n\n\nvar MICROSOFT_API_KEY = ".data _ _ (by decide) h4
  have h6 := jsCode_apertium_entries ae (a :: as) _ _ hsal h5
  have h7 := jsCode_plain ";\n\n\nvar APERTIUM_LANGS = [\n".data _ _ (by decide) h6
  have h8 := jsCode_quoted _ _ _ (output_stringSafe ae k hsk) h7
  have h9 := jsCode_plain "\nvar APERTIUM_API_KEY = ".data _ _ (by decide) h8
  rw [e, h9]
  simp


theorem splitSemicolons_segment (v t : List Char) (h : ∀ ch ∈ v, ch ≠ ';') :
    splitSemicolons (v ++ ';' :: t) = v :: splitSemicolons t := by
  induction v with
  | nil => simp [splitSemicolons]
  | cons c v ih =>
    have hc : c ≠ ';' := h c (List.mem_cons_self _ _)
    have ih2 := ih (fun ch hch => h ch (List.mem_cons_of_mem _ hch))
    simp [splitSemicolons, hc, ih2]

theorem splitSemicolons_last (v : List Char) (h : ∀ ch ∈ v, ch ≠ ';') :
    splitSemicolons v = [v] := by
  induction v with
  | nil => simp [splitSemicolons]
  | cons c v ih =>
    have hc : c ≠ ';' := h c (List.mem_cons_self _ _)
    have ih2 := ih (fun ch hch => h ch (List.mem_cons_of_mem _ hch))
    simp [splitSemicolons, hc, ih2]

theorem forall_mem_flatMap_const {P : Char → Prop} (X : List Char) (al : List String)
    (h : ∀ ch ∈ X, P ch) : ∀ ch ∈ al.flatMap (fun _ => X), P ch := by
  intro ch hch
  obtain ⟨_, _, hx⟩ := List.mem_flatMap.1 hch
  exact h ch hx

theorem forall_mem_append {P : Char → Prop} {a b : List Char} (ha : ∀ ch ∈ a, P ch)
    (hb : ∀ ch ∈ b, P ch) : ∀ ch ∈ a ++ b, P ch := by
  intro ch h
  rcases List.mem_append.1 h with h | h
  · exact ha ch h
  · exact hb ch h

theorem forall_mem_cons {P : Char → Prop} {c : Char} {b : List Char} (hc : P c)
    (hb : ∀ ch ∈ b, P ch) : ∀ ch ∈ c :: b, P ch := by
  intro ch h
  rcases List.mem_cons.1 h with h | h
  · rw [h]; exact hc
  · exact hb ch h

theorem isBlank_of_mem_v (p : List Char) (h : 'v' ∈ p) : isBlank p = false := by
  unfold isBlank
  rw [List.all_eq_false]
  exact ⟨'v', h, by decide⟩

theorem declaredNamesFrom_nonident (X : List Char) (b : Bool)
    (h : ∀ c ∈ X, isIdentChar c = false) : declaredNamesFrom b X = [] := by
  induction X generalizing b with
  | nil => rfl
  | cons c X ih =>
    have hc : isIdentChar c = false := h c (List.mem_cons_self _ _)
    have hv : c ≠ 'v' := by
      intro hcv
      rw [hcv] at hc
      exact absurd hc (by decide)
    have hv2 : ('v' == c) = false := by
      simpa using fun h => hv h.symm
    simp [declaredNamesFrom, List.isPrefixOf, hv2, ih _ (fun c hc => h c (List.mem_cons_of_mem _ hc))]

theorem takeWhile_append_stop (p : Char → Bool) (A B : List Char) (c : Char) (hc : p c = false) :
    (A ++ c :: B).takeWhile p = (A ++ [c]).takeWhile p := by
  induction A with
  | nil => simp [List.takeWhile, hc]
  | cons x A ih => simp [List.takeWhile_cons, ih]


theorem declaredNamesFrom_boundary (A B : List Char) (c : Char) (b : Bool)
    (hc : isIdentChar c = false) (hs : c ≠ ' ') :
    declaredNamesFrom b (A ++ c :: B)
      = declaredNamesFrom b (A ++ [c]) ++ declaredNamesFrom false B := by
  have hne : ∀ d : Char, isIdentChar d = true → (d == c) = false := by
    intro d hd
    simp only [beq_eq_false_iff_ne, ne_eq]
    intro hdc
    rw [hdc, hc] at hd
    exact absurd hd (by decide)
  have hv := hne 'v' (by decide)
  have ha := hne 'a' (by decide)
  have hr := hne 'r' (by decide)
  have hsp : (' ' == c) = false := by
    simpa using fun h => hs h.symm
  induction A generalizing b with
  | nil => simp [declaredNamesFrom, List.isPrefixOf, hv, hc]
  | cons x A ih =>
    have key : (if !b && "var ".data.isPrefixOf (x :: (A ++ c :: B))
          then [String.mk (((A ++ c :: B).drop 3).takeWhile isIdentChar)] else [])
        = (if !b && "var ".data.isPrefixOf (x :: (A ++ [c]))
          then [String.mk (((A ++ [c]).drop 3).takeWhile isIdentChar)] else []) := by
      rcases A with _ | ⟨y, _ | ⟨z, _ | ⟨w, A⟩⟩⟩
      · simp [List.isPrefixOf, ha]
      · simp [List.isPrefixOf, hr]
      · simp [List.isPrefixOf, hsp]
      · simp [List.isPrefixOf, takeWhile_append_stop _ _ _ _ hc]
    have e1 : declaredNamesFrom b (x :: A ++ c :: B)
        = (if !b && "var ".data.isPrefixOf (x :: (A ++ c :: B))
            then [String.mk (((A ++ c :: B).drop 3).takeWhile isIdentChar)] else [])
          ++ declaredNamesFrom (isIdentChar x) (A ++ c :: B) := rfl
    have e2 : declaredNamesFrom b (x :: A ++ [c])
        = (if !b && "var ".data.isPrefixOf (x :: (A ++ [c]))
            then [String.mk (((A ++ [c]).drop 3).takeWhile isIdentChar)] else [])
          ++ declaredNamesFrom (isIdentChar x) (A ++ [c]) := rfl
    rw [e1, e2, key, ih, List.append_assoc]


theorem declarations_all_present (ae : Bool) (k m : String) (al ml : List String)
    (hk : k ≠ "") (hm : m ≠ "") (hal : al ≠ []) (hml : ml ≠ [])
    (hsk : ∀ ch ∈ k.data, ch ≠ '\'' ∧ ch ≠ '\\' ∧ isLineTerminator ch = false)
    (hsm : ∀ ch ∈ m.data, ch ≠ '\'' ∧ ch ≠ '\\' ∧ isLineTerminator ch = false)
    (hsal : ∀ v ∈ al, ∀ ch ∈ v.data, ch ≠ '\'' ∧ ch ≠ '\\' ∧ isLineTerminator ch = false)
    (hsml : ∀ v ∈ ml, ∀ ch ∈ v.data, ch ≠ '\'' ∧ ch ≠ '\\' ∧ isLineTerminator ch = false) :
    declarations (providerAText ae ⟨some k, some al, some m, some ml⟩
        ++ providerBText ae ⟨some k, some al, some m, some ml⟩)
      = some [["APERTIUM_API_KEY"], ["APERTIUM_LANGS"], ["MICROSOFT_API_KEY"],
          ["MICROSOFT_LANGS"]] := by
  have hs2 : ∀ ch ∈ "\n\n\nvar APERTIUM_LANGS = [".data ++ '\n' ::
      (al.flatMap (fun _ => "\n    '',\n".data) ++ "\n]".data), ch ≠ ';' :=
    forall_mem_append (by decide) (forall_mem_cons (by decide)
      (forall_mem_append (forall_mem_flatMap_const _ al (by decide)) (by decide)))
  have hs4 : ∀ ch ∈ "\n\n\nvar MICROSOFT_LANGS = ".data ++ '[' ::
      (ml.flatMap (fun _ => "'',".data) ++ "]".data), ch ≠ ';' :=
    forall_mem_append (by decide) (forall_mem_cons (by decide)
      (forall_mem_append (forall_mem_flatMap_const _ ml (by decide)) (by decide)))
  have hb1 : (!isBlank "\nvar APERTIUM_API_KEY = ''".data) = true := by decide
  have hb2 : (!isBlank ("\n\n\nvar APERTIUM_LANGS = [".data ++ '\n' ::
      (al.flatMap (fun _ => "\n    '',\n".data) ++ "\n]".data))) = true := by
    rw [isBlank_of_mem_v _ (List.mem_append_left _ (by decide))]
    rfl
  have hb3 : (!isBlank "\n\n\nvar MICROSOFT_API_KEY = ''".data) = true := by decide
  have hb4 : (!isBlank ("\n\n\nvar MICROSOFT_LANGS = ".data ++ '[' ::
      (ml.flatMap (fun _ => "'',".data) ++ "]".data))) = true := by
    rw [isBlank_of_mem_v _ (List.mem_append_left _ (by decide))]
    rfl
  have hb5 : (!isBlank "\n".data) = false := by decide
  have hd1 : declaredNames "\nvar APERTIUM_API_KEY = ''".data = ["APERTIUM_API_KEY"] := by
    decide
  have hd3 : declaredNames "\n\n\nvar MICROSOFT_API_KEY = ''".data = ["MICROSOFT_API_KEY"] := by
    decide
  have hd2 : declaredNames ("\n\n\nvar APERTIUM_LANGS = [".data ++ '\n' ::
      (al.flatMap (fun _ => "\n    '',\n".data) ++ "\n]".data)) = ["APERTIUM_LANGS"] := by
    unfold declaredNames
    rw [declaredNamesFrom_boundary _ _ _ _ (by decide) (by decide),
      declaredNamesFrom_nonident _ _
        (forall_mem_append (forall_mem_flatMap_const _ al (by decide)) (by decide))]
    decide
  have hd4 : declaredNames ("\n\n\nvar MICROSOFT_LANGS = ".data ++ '[' ::
      (ml.flatMap (fun _ => "'',".data) ++ "]".data)) = ["MICROSOFT_LANGS"] := by
    unfold declaredNames
    rw [declaredNamesFrom_boundary _ _ _ _ (by decide) (by decide),
      declaredNamesFrom_nonident _ _
        (forall_mem_append (forall_mem_flatMap_const _ ml (by decide)) (by decide))]
    decide
  unfold declarations
  rw [jsCode_all_present ae k m al ml hk hm hal hml hsk hsm hsal hsml]
  unfold statements
  simp only [Option.map_some']
  rw [splitSemicolons_segment _ _ (by decide), splitSemicolons_segment _ _ hs2,
    splitSemicolons_segment _ _ (by decide), splitSemicolons_segment _ _ hs4,
    splitSemicolons_last _ (by decide)]
  simp only [Option.map_some', List.filter_cons, hb1, hb2, hb3, hb4, hb5, if_true,
    List.filter_nil, List.map_cons, List.map_nil, hd1, hd2, hd3, hd4]
  rfl

theorem output_append (ae : Bool) (a b : String) :
    output ae (a ++ b) = output ae a ++ output ae b := by
  cases ae
  · rfl
  · apply String.ext
    simp [output, escape, String.data_append, List.flatMap_append]

/-! ## Claims -/

/-- C1, as stated, fails: a context whose `apertium_api_key` is present and equal
to the empty string renders (with autoescaping on or off) to three newlines, and
the declaration `var APERTIUM_API_KEY = '';` does not occur in them. -/
theorem c1_empty_key_not_emitted :
    render true ⟨some "", none, none, none⟩ = some "\n\n\n"
      ∧ render false ⟨some "", none, none, none⟩ = some "\n\n\n"
      ∧ ¬ Contains "\n\n\n" "var APERTIUM_API_KEY = '';" := by
  decide

/-- C1, amended: the output is four blocks, one per field in the order of the
template, each but the last followed by a newline; the block of a field is the
field's declaration when the field is present and non-empty (a non-empty string,
a non-empty list) and is empty otherwise.  Truth of the content decides, not
presence. -/
theorem c1_declaration_iff_truthy (ae : Bool) (c : Context) :
    ∃ b1 b2 b3 b4 : String,
      render ae c = some (b1 ++ "\n" ++ b2 ++ "\n" ++ b3 ++ "\n" ++ b4)
      ∧ (match c.apertium_api_key with
          | some k =>
            if k = "" then b1 = ""
            else b1 = "\nvar APERTIUM_API_KEY = '" ++ output ae k ++ "';\n"
          | none => b1 = "")
      ∧ (match c.apertium_langs with
          | some (l :: ls) =>
            b2 = "\nvar APERTIUM_LANGS = [\n"
              ++ joinMap (fun x => "\n    '" ++ output ae x ++ "',\n") (l :: ls) ++ "\n];\n"
          | some [] => b2 = ""
          | none => b2 = "")
      ∧ (match c.microsoft_api_key with
          | some k =>
            if k = "" then b3 = ""
            else b3 = "\nvar MICROSOFT_API_KEY = '" ++ output ae k ++ "';\n"
          | none => b3 = "")
      ∧ (match c.microsoft_langs with
          | some (l :: ls) =>
            b4 = "\nvar MICROSOFT_LANGS = ["
              ++ joinMap (fun x => "'" ++ output ae x ++ "',") (l :: ls) ++ "];\n"
          | some [] => b4 = ""
          | none => b4 = "") := by
  refine ⟨apertiumKeyText ae c.apertium_api_key, apertiumLangsText ae c.apertium_langs,
    microsoftKeyText ae c.microsoft_api_key, microsoftLangsText ae c.microsoft_langs,
    ?_, ?_, ?_, ?_, ?_⟩
  · rw [render_eq]
    simp [providerAText, providerBText, String.append_assoc]
  · rcases c with ⟨k, al, m, ml⟩
    cases k with
    | none => rfl
    | some k => by_cases hk : k = "" <;> simp [apertiumKeyText, hk]
  · rcases c with ⟨k, al, m, ml⟩
    rcases al with _ | _ | ⟨l, ls⟩ <;> rfl
  · rcases c with ⟨k, al, m, ml⟩
    cases m with
    | none => rfl
    | some m => by_cases hm : m = "" <;> simp [microsoftKeyText, hm]
  · rcases c with ⟨k, al, m, ml⟩
    rcases ml with _ | _ | ⟨l, ls⟩ <;> rfl

/-- C2, as stated, fails: with all four fields absent the output (with
autoescaping on or off) is three newline characters, not the empty string. -/
theorem c2_all_absent_not_empty :
    render true ⟨none, none, none, none⟩ = some "\n\n\n"
      ∧ render false ⟨none, none, none, none⟩ = some "\n\n\n"
      ∧ "\n\n\n".length = 3 ∧ "".length = 0 := by
  decide

/-- C2, amended: with all four fields absent the output is exactly the three
newlines that end lines 3, 10 and 13 of the template; no declaration and no
character other than a newline is written. -/
theorem c2_all_absent_three_newlines (ae : Bool) :
    render ae ⟨none, none, none, none⟩ = some "\n\n\n" := by
  cases ae <;> decide

/-- C3, as stated, fails: the context below has all four fields present, keys
and lists non-empty and values free of quotes and newlines, and its output (the
same with autoescaping on and off) has five statements, the last of which
declares APERTIUM_API_KEY a second time.  The backslash that ends the first
language code takes the closing quote with it, so that the string literal ends
at the opening quote of the second code, whose text is then read as code.  A
carriage return in a key is no newline character either, and it breaks the
string literal: that output is not well-formed JavaScript at all. -/
theorem c3_backslash_adds_statement :
    render true ⟨some "k", some ["en"], some "m",
          some ["a\\", "]; var APERTIUM_API_KEY = 1; //"]⟩
        = some "\nvar APERTIUM_API_KEY = 'k';\n\n\nvar APERTIUM_LANGS = [\n\n    'en',\n\n];\n\n\nvar MICROSOFT_API_KEY = 'm';\n\n\nvar MICROSOFT_LANGS = ['a\\',']; var APERTIUM_API_KEY = 1; //',];\n"
      ∧ render false ⟨some "k", some ["en"], some "m",
          some ["a\\", "]; var APERTIUM_API_KEY = 1; //"]⟩
        = some "\nvar APERTIUM_API_KEY = 'k';\n\n\nvar APERTIUM_LANGS = [\n\n    'en',\n\n];\n\n\nvar MICROSOFT_API_KEY = 'm';\n\n\nvar MICROSOFT_LANGS = ['a\\',']; var APERTIUM_API_KEY = 1; //',];\n"
      ∧ declarations "\nvar APERTIUM_API_KEY = 'k';\n\n\nvar APERTIUM_LANGS = [\n\n    'en',\n\n];\n\n\nvar MICROSOFT_API_KEY = 'm';\n\n\nvar MICROSOFT_LANGS = ['a\\',']; var APERTIUM_API_KEY = 1; //',];\n"
        = some [["APERTIUM_API_KEY"], ["APERTIUM_LANGS"], ["MICROSOFT_API_KEY"],
            ["MICROSOFT_LANGS"], ["APERTIUM_API_KEY"]]
      ∧ (∀ v ∈ ["k", "m", "en", "a\\", "]; var APERTIUM_API_KEY = 1; //"],
          ∀ ch ∈ v.data, ch ≠ '\'' ∧ ch ≠ '"' ∧ ch ≠ '\n')
      ∧ render false ⟨some "a\rb", some ["en"], some "m", some ["en"]⟩
        = some "\nvar APERTIUM_API_KEY = 'a\rb';\n\n\nvar APERTIUM_LANGS = [\n\n    'en',\n\n];\n\n\nvar MICROSOFT_API_KEY = 'm';\n\n\nvar MICROSOFT_LANGS = ['en',];\n"
      ∧ declarations "\nvar APERTIUM_API_KEY = 'a\rb';\n\n\nvar APERTIUM_LANGS = [\n\n    'en',\n\n];\n\n\nvar MICROSOFT_API_KEY = 'm';\n\n\nvar MICROSOFT_LANGS = ['en',];\n"
        = none := by
  decide

/-- C3, amended: when all four fields are present, with non-empty keys, non-empty
language lists and values free of quotes, backslashes and line terminators, the
output is well-formed JavaScript text of exactly four statements, and these
declare, in this order and each exactly one name, APERTIUM_API_KEY,
APERTIUM_LANGS, MICROSOFT_API_KEY and MICROSOFT_LANGS: each name is declared
once, and each declaration begins after the `;` that ends the previous one. -/
theorem c3_four_declarations_in_order (ae : Bool) (k m : String) (al ml : List String)
    (hk : k ≠ "") (hm : m ≠ "") (hal : al ≠ []) (hml : ml ≠ [])
    (hclean : ∀ v ∈ k :: m :: (al ++ ml), ∀ ch ∈ v.data,
      ch ≠ '\'' ∧ ch ≠ '"' ∧ ch ≠ '\\' ∧ isLineTerminator ch = false) :
    ∃ out : String, render ae ⟨some k, some al, some m, some ml⟩ = some out
      ∧ declarations out
        = some [["APERTIUM_API_KEY"], ["APERTIUM_LANGS"], ["MICROSOFT_API_KEY"],
            ["MICROSOFT_LANGS"]] := by
  have hsk : ∀ ch ∈ k.data, ch ≠ '\'' ∧ ch ≠ '\\' ∧ isLineTerminator ch = false :=
    fun ch h => ⟨(hclean k (by simp) ch h).1, (hclean k (by simp) ch h).2.2⟩
  have hsm : ∀ ch ∈ m.data, ch ≠ '\'' ∧ ch ≠ '\\' ∧ isLineTerminator ch = false :=
    fun ch h => ⟨(hclean m (by simp) ch h).1, (hclean m (by simp) ch h).2.2⟩
  have hsal : ∀ v ∈ al, ∀ ch ∈ v.data,
      ch ≠ '\'' ∧ ch ≠ '\\' ∧ isLineTerminator ch = false :=
    fun v hv ch h => ⟨(hclean v (by simp [hv]) ch h).1, (hclean v (by simp [hv]) ch h).2.2⟩
  have hsml : ∀ v ∈ ml, ∀ ch ∈ v.data,
      ch ≠ '\'' ∧ ch ≠ '\\' ∧ isLineTerminator ch = false :=
    fun v hv ch h => ⟨(hclean v (by simp [hv]) ch h).1, (hclean v (by simp [hv]) ch h).2.2⟩
  exact ⟨_, render_eq ae _,
    declarations_all_present ae k m al ml hk hm hal hml hsk hsm hsal hsml⟩

/-- C3, witness: two keys and two lists of two language codes. -/
theorem c3_four_declarations_in_order_witness :
    "key1" ≠ "" ∧ "key2" ≠ "" ∧ ["en", "es"] ≠ [] ∧ ["en", "de"] ≠ []
      ∧ ∃ out : String,
          render true ⟨some "key1", some ["en", "es"], some "key2", some ["en", "de"]⟩
            = some out
          ∧ declarations out
            = some [["APERTIUM_API_KEY"], ["APERTIUM_LANGS"], ["MICROSOFT_API_KEY"],
                ["MICROSOFT_LANGS"]] :=
  ⟨by decide, by decide, by decide, by decide,
    c3_four_declarations_in_order true "key1" "key2" ["en", "es"] ["en", "de"]
      (by decide) (by decide) (by decide) (by decide) (by decide)⟩

/-- C4, as stated, fails: with autoescaping on (Django's default) the key `a&b`
is written as `a&amp;b`, and `var APERTIUM_API_KEY = 'a&b';` does not occur in
the output; likewise for the element `a&b` of the `microsoft_langs` list.  The
key made of the five characters `&`, `<`, `>`, `"`, `'` is written as the five
entities `&amp;&lt;&gt;&quot;&#39;`. -/
theorem c4_key_not_verbatim :
    render true ⟨some "a&b", none, none, none⟩
        = some "\nvar APERTIUM_API_KEY = 'a&amp;b';\n\n\n\n"
      ∧ ¬ Contains "\nvar APERTIUM_API_KEY = 'a&amp;b';\n\n\n\n"
          "var APERTIUM_API_KEY = 'a&b';"
      ∧ render true ⟨none, none, none, some ["a&b"]⟩
        = some "\n\n\n\nvar MICROSOFT_LANGS = ['a&amp;b',];\n"
      ∧ ¬ Contains "\n\n\n\nvar MICROSOFT_LANGS = ['a&amp;b',];\n" "'a&b',"
      ∧ render true ⟨some "&<>\"'", none, none, none⟩
        = some "\nvar APERTIUM_API_KEY = '&amp;&lt;&gt;&quot;&#39;';\n\n\n\n"
      ∧ ¬ Contains "\nvar APERTIUM_API_KEY = '&amp;&lt;&gt;&quot;&#39;';\n\n\n\n"
          "var APERTIUM_API_KEY = '&<>\"'';" := by
  decide

/-- C4, amended: every emitted string value stands between single quotes as
`{{ }}` writes it, `output ae v`: each non-empty key `k` gives
`var APERTIUM_API_KEY = '<output ae k>';` (respectively MICROSOFT_API_KEY) and
each element `l` of a language list gives `'<output ae l>',`.  What `{{ }}`
writes is the value itself when autoescaping is off, and also when the value has
none of the five characters `&`, `<`, `>`, `"`, `'`.  With autoescaping on it is
the value with each `&` written as `&amp;`, each `<` as `&lt;`, each `>` as
`&gt;`, each `"` as `&quot;` and each `'` as `&#39;`: what is written for a
text is what is written for its parts, one after the other, and the five
characters are written as these entities. -/
theorem c4_values_between_quotes (ae : Bool) (c : Context) :
    ∃ out : String, render ae c = some out
      ∧ (∀ k, c.apertium_api_key = some k → k ≠ "" →
          Contains out ("var APERTIUM_API_KEY = '" ++ output ae k ++ "';"))
      ∧ (∀ k, c.microsoft_api_key = some k → k ≠ "" →
          Contains out ("var MICROSOFT_API_KEY = '" ++ output ae k ++ "';"))
      ∧ (∀ ls l, c.apertium_langs = some ls → l ∈ ls →
          Contains out ("'" ++ output ae l ++ "',"))
      ∧ (∀ ls l, c.microsoft_langs = some ls → l ∈ ls →
          Contains out ("'" ++ output ae l ++ "',"))
      ∧ (∀ v, output false v = v)
      ∧ (∀ v : String,
          (∀ ch ∈ v.data, ch ≠ '&' ∧ ch ≠ '<' ∧ ch ≠ '>' ∧ ch ≠ '"' ∧ ch ≠ '\'') →
          output ae v = v)
      ∧ (∀ a b : String, output ae (a ++ b) = output ae a ++ output ae b)
      ∧ output true "&" = "&amp;"
      ∧ output true "<" = "&lt;"
      ∧ output true ">" = "&gt;"
      ∧ output true "\"" = "&quot;"
      ∧ output true "'" = "&#39;" := by
  refine ⟨_, render_eq ae c, ?_, ?_, ?_, ?_, output_false, output_plain ae, output_append ae,
    by decide, by decide, by decide, by decide, by decide⟩
  · intro k hk hne
    apply contains_append_right
    apply contains_append_right
    rw [hk]
    simp only [apertiumKeyText, hne, if_false]
    exact contains_append_right _ (⟨"\n".data, "\n".data, by simp [String.data_append]⟩)
  · intro k hk hne
    apply contains_append_left
    apply contains_append_right
    apply contains_append_right
    rw [hk]
    simp only [microsoftKeyText, hne, if_false]
    exact ⟨"\n".data, "\n".data, by simp [String.data_append]⟩
  · intro ls l hls hl
    apply contains_append_right
    apply contains_append_left
    apply contains_append_right
    rw [hls]
    obtain ⟨x, xs, rfl⟩ := List.exists_cons_of_ne_nil (List.ne_nil_of_mem hl)
    simp only [apertiumLangsText]
    apply contains_append_right
    apply contains_append_left
    have h1 := contains_joinMap (fun x => "\n    '" ++ output ae x ++ "',\n") hl
    unfold Contains at h1 ⊢
    refine List.IsInfix.trans ⟨"\n    ".data, "\n".data, ?_⟩ h1
    simp [String.data_append]
  · intro ls l hls hl
    apply contains_append_left
    apply contains_append_left
    rw [hls]
    obtain ⟨x, xs, rfl⟩ := List.exists_cons_of_ne_nil (List.ne_nil_of_mem hl)
    simp only [microsoftLangsText]
    apply contains_append_right
    apply contains_append_left
    exact contains_joinMap (fun x => "'" ++ output ae x ++ "',") hl

/-- C5, as stated, fails: with autoescaping on (Django's default) the one-element
list whose element is `a&b` is written as `var MICROSOFT_LANGS = ['a&amp;b',];`,
not as `var MICROSOFT_LANGS = ['a&b',];`. -/
theorem c5_element_not_verbatim :
    render true ⟨none, none, none, some ["a&b"]⟩
        = some "\n\n\n\nvar MICROSOFT_LANGS = ['a&amp;b',];\n"
      ∧ ¬ Contains "\n\n\n\nvar MICROSOFT_LANGS = ['a&amp;b',];\n"
          "var MICROSOFT_LANGS = ['a&b',];" := by
  decide

/-- C5, amended: for a non-empty `microsoft_langs` list, lines 14-16 of the
template render to a newline, the declaration and a newline, and the output is
the rendering of lines 1-13 followed by that.  The declaration is
`var MICROSOFT_LANGS = [`, then for each element in input order a single quote,
the element as `{{ }}` writes it (`output ae x`, the element itself when it has
none of `& < > " '` or autoescaping is off), a single quote and a comma, then
`];`, with nothing between consecutive entries; it is a single line when no
element has a newline.  For the list `["en", "es"]` the entries are
`'en','es',`. -/
theorem c5_microsoft_langs_single_line (ae : Bool) (k m : Option String)
    (al : Option (List String)) (l : String) (ls : List String) :
    ∃ pre : String,
      evalNodes ae (Context.lookup ⟨k, al, m, some (l :: ls)⟩) (provider_a ++ lines_11_13)
        = some pre
      ∧ evalNodes ae (Context.lookup ⟨k, al, m, some (l :: ls)⟩) lines_14_16
        = some ("\n" ++ ("var MICROSOFT_LANGS = ["
            ++ joinMap (fun x => "'" ++ output ae x ++ "',") (l :: ls) ++ "];") ++ "\n")
      ∧ render ae ⟨k, al, m, some (l :: ls)⟩
        = some (pre ++ ("\n" ++ ("var MICROSOFT_LANGS = ["
            ++ joinMap (fun x => "'" ++ output ae x ++ "',") (l :: ls) ++ "];") ++ "\n"))
      ∧ ((∀ v ∈ l :: ls, ∀ ch ∈ v.data, ch ≠ '\n') →
          ∀ ch ∈ ("var MICROSOFT_LANGS = ["
            ++ joinMap (fun x => "'" ++ output ae x ++ "',") (l :: ls) ++ "];").data,
            ch ≠ '\n')
      ∧ joinMap (fun x => "'" ++ output ae x ++ "',") ["en", "es"] = "'en','es'," := by
  have ha := evalNodes_append ae _ _ _ _ _
    (eval_provider_a ae ⟨k, al, m, some (l :: ls)⟩)
    (eval_lines_11_13 ae ⟨k, al, m, some (l :: ls)⟩)
  have hb := eval_lines_14_16 ae ⟨k, al, m, some (l :: ls)⟩
  rw [microsoftLangsText_cons] at hb
  refine ⟨_, ha, hb, ?_, ?_, ?_⟩
  · rw [render, config_js, provider_b, ← List.append_assoc]
    exact evalNodes_append ae _ _ _ _ _ ha hb
  · intro h
    simp only [String.data_append]
    exact noNewline_append (noNewline_append (by decide) (noNewline_joinMap ae _ h))
      (by decide)
  · cases ae <;> decide

/-- C6, as stated, fails: for the list `["en", "es"]` (autoescaping on or off) a
blank line stands before each element line and before the closing `];`, so the
layout `var APERTIUM_LANGS = [`, `    'en',`, `    'es',`, `];` on consecutive
lines does not occur in the output. -/
theorem c6_blank_lines_between_entries :
    render true ⟨none, some ["en", "es"], none, none⟩
        = some "\n\nvar APERTIUM_LANGS = [\n\n    'en',\n\n    'es',\n\n];\n\n\n"
      ∧ render false ⟨none, some ["en", "es"], none, none⟩
        = some "\n\nvar APERTIUM_LANGS = [\n\n    'en',\n\n    'es',\n\n];\n\n\n"
      ∧ ¬ Contains "\n\nvar APERTIUM_LANGS = [\n\n    'en',\n\n    'es',\n\n];\n\n\n"
          "var APERTIUM_LANGS = [\n    'en',\n    'es',\n];" := by
  decide

/-- C6, amended: for a non-empty `apertium_langs` list, lines 4-10 of the template
render to a newline, the declaration and two newlines.  The declaration is the
line `var APERTIUM_LANGS = [`, then for each element in input order a blank line
and the line made of four spaces, a single quote, the element as `{{ }}` writes
it, a single quote and a comma, then a blank line and the line `];` (the lines
are these when no element has a newline). -/
theorem c6_apertium_langs_layout (ae : Bool) (k m : Option String)
    (ml : Option (List String)) (l : String) (ls : List String) :
    evalNodes ae (Context.lookup ⟨k, some (l :: ls), m, ml⟩) lines_4_10
        = some ("\n" ++ ("var APERTIUM_LANGS = [\n"
            ++ joinMap (fun x => "\n    '" ++ output ae x ++ "',\n") (l :: ls) ++ "\n];")
            ++ "\n" ++ "\n")
      ∧ (∃ pre post : String,
          evalNodes ae (Context.lookup ⟨k, some (l :: ls), m, ml⟩) lines_1_3 = some pre
          ∧ evalNodes ae (Context.lookup ⟨k, some (l :: ls), m, ml⟩) provider_b = some post
          ∧ render ae ⟨k, some (l :: ls), m, ml⟩
            = some (pre ++ ("\n" ++ ("var APERTIUM_LANGS = [\n"
                ++ joinMap (fun x => "\n    '" ++ output ae x ++ "',\n") (l :: ls) ++ "\n];")
                ++ "\n" ++ "\n") ++ post))
      ∧ ((∀ v ∈ l :: ls, ∀ ch ∈ v.data, ch ≠ '\n') →
          linesOf ("var APERTIUM_LANGS = [\n"
            ++ joinMap (fun x => "\n    '" ++ output ae x ++ "',\n") (l :: ls) ++ "\n];")
          = ["var APERTIUM_LANGS = ["]
            ++ (l :: ls).flatMap (fun x => ["", "    '" ++ output ae x ++ "',"])
            ++ ["", "];"]) := by
  have ha := eval_lines_1_3 ae ⟨k, some (l :: ls), m, ml⟩
  have hb := eval_lines_4_10 ae ⟨k, some (l :: ls), m, ml⟩
  have hc := eval_provider_b ae ⟨k, some (l :: ls), m, ml⟩
  simp only [apertiumLangsText_cons] at hb
  refine ⟨hb, ⟨_, _, ha, hc, ?_⟩, ?_⟩
  · rw [render, config_js, provider_a]
    have h1 := evalNodes_append ae _ _ _ _ _ (evalNodes_append ae _ _ _ _ _ ha hb) hc
    simpa [String.append_assoc] using h1
  · intro h
    have e : ("var APERTIUM_LANGS = [\n"
          ++ joinMap (fun x => "\n    '" ++ output ae x ++ "',\n") (l :: ls) ++ "\n];").data
        = "var APERTIUM_LANGS = [".data ++ '\n' ::
            ((joinMap (fun x => "\n    '" ++ output ae x ++ "',\n") (l :: ls)).data
              ++ ('\n' :: "];".data)) := by
      simp [String.data_append]
    unfold linesOf
    rw [e, splitLines_segment _ _ (by decide), splitLines_entries ae _ _ h, splitLines_newline,
      splitLines_last _ (by decide)]
    simp only [List.map_cons, List.map_append, List.map_nil, mk_data, List.cons_append,
      List.nil_append, List.append_assoc, map_mk_entries]

/-- C7, as stated, fails: with `apertium_api_key` present and equal to the empty
string and the other three fields absent, the output (with autoescaping on or
off) is three newlines, and `var APERTIUM_API_KEY = '';` does not occur in it. -/
theorem c7_empty_key_no_line :
    render true ⟨some "", none, none, none⟩ = some "\n\n\n"
      ∧ render false ⟨some "", none, none, none⟩ = some "\n\n\n"
      ∧ ¬ Contains "\n\n\n" "var APERTIUM_API_KEY = '';"
      ∧ ¬ Contains "\n\n\n" "var APERTIUM_API_KEY" := by
  decide

/-- C7, amended: when `apertium_api_key` is present with a non-empty value `k`
and the other three fields are absent, the output is exactly a newline, the line
`var APERTIUM_API_KEY = '...';` holding `k` as `{{ }}` writes it, and four
newlines: the APERTIUM_API_KEY line and nothing else but newlines. -/
theorem c7_only_key_line (ae : Bool) (k : String) (hk : k ≠ "") :
    render ae ⟨some k, none, none, none⟩
      = some ("\nvar APERTIUM_API_KEY = '" ++ output ae k ++ "';\n" ++ "\n\n\n") := by
  rw [render_eq]
  simp [providerAText, providerBText, apertiumKeyText, apertiumLangsText, microsoftKeyText,
    microsoftLangsText, hk, String.append_assoc]

/-- C7, witness: the key `abc`, with autoescaping on. -/
theorem c7_only_key_line_witness :
    "abc" ≠ ""
      ∧ render true ⟨some "abc", none, none, none⟩
          = some ("\nvar APERTIUM_API_KEY = '" ++ output true "abc" ++ "';\n" ++ "\n\n\n") :=
  ⟨by decide, c7_only_key_line true "abc" (by decide)⟩

/-- C8: two contexts that agree on `apertium_api_key` and `apertium_langs` have
the same provider-A part: lines 1-10 of the template render to the same text `a`
in both, and each output is that text followed by what lines 11-16 render to. -/
theorem c8_provider_a_unaffected_by_b (ae : Bool) (c1 c2 : Context)
    (hk : c1.apertium_api_key = c2.apertium_api_key)
    (hl : c1.apertium_langs = c2.apertium_langs) :
    ∃ a b1 b2 : String,
      evalNodes ae c1.lookup provider_a = some a
      ∧ evalNodes ae c2.lookup provider_a = some a
      ∧ evalNodes ae c1.lookup provider_b = some b1
      ∧ evalNodes ae c2.lookup provider_b = some b2
      ∧ render ae c1 = some (a ++ b1)
      ∧ render ae c2 = some (a ++ b2) := by
  refine ⟨providerAText ae c1, providerBText ae c1, providerBText ae c2,
    eval_provider_a ae c1, ?_, eval_provider_b ae c1, eval_provider_b ae c2,
    render_eq ae c1, ?_⟩
  · rw [eval_provider_a, providerAText, providerAText, hk, hl]
  · rw [render_eq, providerAText, providerAText, hk, hl]

/-- C8, witness: two contexts with the same provider-A fields and different
provider-B fields. -/
theorem c8_provider_a_unaffected_by_b_witness :
    ∃ a b1 b2 : String,
      evalNodes true (Context.lookup ⟨some "k", some ["en"], none, none⟩) provider_a = some a
      ∧ evalNodes true (Context.lookup ⟨some "k", some ["en"], some "m", some ["de"]⟩)
          provider_a = some a
      ∧ evalNodes true (Context.lookup ⟨some "k", some ["en"], none, none⟩) provider_b
          = some b1
      ∧ evalNodes true (Context.lookup ⟨some "k", some ["en"], some "m", some ["de"]⟩)
          provider_b = some b2
      ∧ render true ⟨some "k", some ["en"], none, none⟩ = some (a ++ b1)
      ∧ render true ⟨some "k", some ["en"], some "m", some ["de"]⟩ = some (a ++ b2) :=
  c8_provider_a_unaffected_by_b true ⟨some "k", some ["en"], none, none⟩
    ⟨some "k", some ["en"], some "m", some ["de"]⟩ rfl rfl

/-- C9, as stated, fails: a context whose `microsoft_langs` (respectively
`apertium_langs`) is present and equal to the empty list renders to three
newlines, in which no `var MICROSOFT_LANGS = [];` (respectively
`var APERTIUM_LANGS = [`) occurs. -/
theorem c9_empty_list_not_emitted :
    render true ⟨none, none, none, some []⟩ = some "\n\n\n"
      ∧ render false ⟨none, none, none, some []⟩ = some "\n\n\n"
      ∧ render true ⟨none, some [], none, none⟩ = some "\n\n\n"
      ∧ render false ⟨none, some [], none, none⟩ = some "\n\n\n"
      ∧ ¬ Contains "\n\n\n" "var MICROSOFT_LANGS = [];"
      ∧ ¬ Contains "\n\n\n" "var APERTIUM_LANGS = [" := by
  decide

/-- C9, amended: nothing is written for an empty-but-present language list,
whatever the other three fields are.  For `apertium_langs` equal to the empty
list, lines 4-10 of the template render to the newline that ends line 10 and to
nothing else, and the output is the rendering of lines 1-3, that newline and the
rendering of lines 11-16.  For `microsoft_langs` equal to the empty list, lines
14-16 render to the empty text, and the output is the rendering of lines 1-13.
In both cases the output is the one of the context in which the list is
absent. -/
theorem c9_empty_list_as_absent (ae : Bool) (k m : Option String)
    (al ml : Option (List String)) :
    evalNodes ae (Context.lookup ⟨k, some [], m, ml⟩) lines_4_10 = some "\n"
      ∧ evalNodes ae (Context.lookup ⟨k, al, m, some []⟩) lines_14_16 = some ""
      ∧ (∃ pre post : String,
          evalNodes ae (Context.lookup ⟨k, some [], m, ml⟩) lines_1_3 = some pre
          ∧ evalNodes ae (Context.lookup ⟨k, some [], m, ml⟩) provider_b = some post
          ∧ render ae ⟨k, some [], m, ml⟩ = some (pre ++ "\n" ++ post))
      ∧ (∃ pre : String,
          evalNodes ae (Context.lookup ⟨k, al, m, some []⟩) (provider_a ++ lines_11_13)
            = some pre
          ∧ render ae ⟨k, al, m, some []⟩ = some pre)
      ∧ render ae ⟨k, some [], m, ml⟩ = render ae ⟨k, none, m, ml⟩
      ∧ render ae ⟨k, al, m, some []⟩ = render ae ⟨k, al, m, none⟩ := by
  have h1 := eval_lines_1_3 ae ⟨k, some [], m, ml⟩
  have h2 := eval_lines_4_10 ae ⟨k, some [], m, ml⟩
  have h3 := eval_provider_b ae ⟨k, some [], m, ml⟩
  have h4 := evalNodes_append ae _ _ _ _ _ (eval_provider_a ae ⟨k, al, m, some []⟩)
    (eval_lines_11_13 ae ⟨k, al, m, some []⟩)
  have h5 := eval_lines_14_16 ae ⟨k, al, m, some []⟩
  have e2 : apertiumLangsText ae (some []) ++ "\n" = "\n" := rfl
  have e5 : microsoftLangsText ae (some []) = "" := rfl
  simp only [e2] at h2
  simp only [e5] at h5
  refine ⟨h2, h5, ⟨_, _, h1, h3, ?_⟩, ⟨_, h4, ?_⟩, ?_, ?_⟩
  · rw [render, config_js, provider_a]
    have h6 := evalNodes_append ae _ _ _ _ _ (evalNodes_append ae _ _ _ _ _ h1 h2) h3
    simpa [String.append_assoc] using h6
  · rw [render, config_js, provider_b, ← List.append_assoc]
    have h6 := evalNodes_append ae _ _ _ _ _ h4 h5
    simpa using h6
  · simp [render_eq, providerAText, providerBText, apertiumLangsText]
  · simp [render_eq, providerAText, providerBText, microsoftLangsText]

/-- C10, as stated, fails: with autoescaping on (Django's default) the two lists
of the claim render differently, the single quotes of the element `a','b` being
written as `&#39;`, and no two different lists render to the same output. -/
theorem c10_injective_with_autoescape :
    render true ⟨none, none, none, some ["a','b"]⟩
        = some "\n\n\n\nvar MICROSOFT_LANGS = ['a&#39;,&#39;b',];\n"
      ∧ render true ⟨none, none, none, some ["a", "b"]⟩
        = some "\n\n\n\nvar MICROSOFT_LANGS = ['a','b',];\n"
      ∧ ¬ ∃ xs ys : List String, xs ≠ ys
          ∧ render true ⟨none, none, none, some xs⟩ = render true ⟨none, none, none, some ys⟩ := by
  refine ⟨by decide, by decide, ?_⟩
  rintro ⟨xs, ys, hne, h⟩
  exact hne (render_microsoft_langs_injective true none none none xs ys (Or.inl rfl) h)

/-- C10, amended: with autoescaping off, rendering is not injective on language
lists: the one-element list whose element is `a','b` and the list `["a", "b"]`
both render to `var MICROSOFT_LANGS = ['a','b',];`.  The output determines the
`microsoft_langs` list uniquely (the other three fields being the same) when
autoescaping is on, and also, with autoescaping off, among the lists whose
elements contain no single quote. -/
theorem c10_injective_unless_raw_quote (ae : Bool) (k m : Option String)
    (al : Option (List String)) (xs ys : List String) :
    (render false ⟨none, none, none, some ["a','b"]⟩
        = some "\n\n\n\nvar MICROSOFT_LANGS = ['a','b',];\n"
      ∧ render false ⟨none, none, none, some ["a", "b"]⟩
        = some "\n\n\n\nvar MICROSOFT_LANGS = ['a','b',];\n")
      ∧ ((ae = true ∨
            ((∀ v ∈ xs, ∀ ch ∈ v.data, ch ≠ '\'') ∧ (∀ v ∈ ys, ∀ ch ∈ v.data, ch ≠ '\''))) →
          render ae ⟨k, al, m, some xs⟩ = render ae ⟨k, al, m, some ys⟩ → xs = ys) :=
  ⟨⟨by decide, by decide⟩, render_microsoft_langs_injective ae k m al xs ys⟩

end ConfigJs
